import Mathlib

/-!
Verification of the bounded blocking queue from
`rocketmq/src/blocking_queue.rs`.

The Rust type `BlockingQueue<T>` holds a `Mutex<VecDeque<T>>` buffer, an
immutable `capacity : usize`, and a `Notify` wake signal.  Every mutation of
the buffer happens inside a single critical section that checks the guard
condition and mutates atomically, so at the level of observable queue states
each operation is an atomic step on the pair (buffer, capacity).  We embed
that state directly: the `VecDeque` becomes a `List` (front of the deque is
the head of the list, `push_back` appends at the tail, `pop_front` removes
the head), and `capacity` a `Nat`.  The `Notify` signal carries no data and
only controls when a suspended loop re-runs its check, so it does not appear
in the state.

`put` and `take` are retry loops: the loop body is one atomic
check-and-mutate step (embedded as `tryPut` / `tryTake`); when the check
fails the task suspends on the wake signal and, once woken, runs the body
again.  `offer` and `poll` wrap those loops in `tokio::time::timeout`, which
always polls the inner future at least once before the deadline can fire and
on expiry drops the suspended loop, whose body has then performed no
mutation.  The claims about the timed operations all quantify over runs with
no concurrent operations ("never drained within d", "no insert within d"),
so between two iterations of a suspended loop the state is unchanged; we
embed the loop with an explicit iteration budget (`putLoop` / `takeLoop`,
at least one iteration for any timeout, including zero).
-/

/-- The observable state of a `BlockingQueue<T>`: the buffer protected by the
mutex (head of the list = front of the `VecDeque`) and the immutable
capacity.  The `Notify` field carries no state observable through the four
operations. -/
structure BlockingQueue (T : Type) where
  queue : List T
  capacity : Nat
deriving DecidableEq

/-- `BlockingQueue::new(capacity)`: `VecDeque::with_capacity` only
preallocates storage, so the buffer starts empty; `capacity` is stored
unchanged.  The constructor is total: it performs no validation. -/
def BlockingQueue.new (T : Type) (capacity : Nat) : BlockingQueue T :=
  ⟨[], capacity⟩

/-- One iteration of the body of the `put` loop, the atomic critical
section: if `queue.len() < self.capacity` the item is pushed at the back and
the loop returns, otherwise nothing is mutated (the task will suspend on the
wake signal).  `none` means the check failed and no mutation happened. -/
def tryPut {T : Type} (q : BlockingQueue T) (item : T) :
    Option (BlockingQueue T) :=
  if q.queue.length < q.capacity then
    some ⟨q.queue ++ [item], q.capacity⟩
  else
    none

/-- One iteration of the body of the `take` loop, the atomic critical
section: `pop_front` removes and returns the head element if the buffer is
non-empty, otherwise nothing is mutated. -/
def tryTake {T : Type} (q : BlockingQueue T) :
    Option (T × BlockingQueue T) :=
  match q.queue with
  | [] => none
  | item :: rest => some (item, ⟨rest, q.capacity⟩)

/-- The `put` retry loop in a quiescent environment (no concurrent
operations, as in the timed-operation claims): each permitted iteration runs
the atomic body `tryPut` on the unchanged state; `fuel` is the number of
iterations the surrounding deadline still permits, and fuel 0 means the
deadline elapsed while the task was suspended, cancelling the loop with no
mutation. -/
def putLoop {T : Type} (q : BlockingQueue T) (item : T) :
    Nat → Option (BlockingQueue T)
  | 0 => none
  | n + 1 =>
    match tryPut q item with
    | some q' => some q'
    | none => putLoop q item n

/-- The `take` retry loop in a quiescent environment, symmetric to
`putLoop`. -/
def takeLoop {T : Type} (q : BlockingQueue T) :
    Nat → Option (T × BlockingQueue T)
  | 0 => none
  | n + 1 =>
    match tryTake q with
    | some r => some r
    | none => takeLoop q n

/-- `offer(item, timeout)` is `time::timeout(timeout, self.put(item))` and
reports whether `put` completed before the deadline.  `tokio`'s timeout
polls the inner future once before the deadline can fire, so even a zero
timeout runs at least one iteration of the loop body; `d` abstracts the
number of further iterations the deadline allows.  On expiry the loop is
dropped while suspended, so the state is the untouched `q`. -/
def offer {T : Type} (q : BlockingQueue T) (item : T) (d : Nat) :
    Bool × BlockingQueue T :=
  match putLoop q item (d + 1) with
  | some q' => (true, q')
  | none => (false, q)

/-- `poll(timeout)` is `time::timeout(timeout, self.take()).ok()`: `Some`
with the taken element when `take` completed before the deadline, `None`
with the state untouched on expiry. -/
def poll {T : Type} (q : BlockingQueue T) (d : Nat) :
    Option T × BlockingQueue T :=
  match takeLoop q (d + 1) with
  | some (item, q') => (some item, q')
  | none => (none, q)

/-- A single queue operation, for stating invariants over arbitrary
sequences of calls. -/
inductive Op (T : Type) where
  | put (v : T)
  | take
deriving DecidableEq

/-- The observable effect of one operation on the queue state: a `put` whose
guard fails and a `take` on an empty buffer suspend, having mutated
nothing — the state they leave behind while suspended is unchanged. -/
def applyOp {T : Type} (q : BlockingQueue T) : Op T → BlockingQueue T
  | .put v =>
    match tryPut q v with
    | some q' => q'
    | none => q
  | .take =>
    match tryTake q with
    | some (_, q') => q'
    | none => q

/-- Run a sequence of operations from a starting state. -/
def run {T : Type} (q : BlockingQueue T) (ops : List (Op T)) :
    BlockingQueue T :=
  ops.foldl applyOp q

/-- `put` each element of a list in order; `none` if some `put` would
suspend. -/
def putAll {T : Type} (q : BlockingQueue T) : List T → Option (BlockingQueue T)
  | [] => some q
  | v :: vs =>
    match tryPut q v with
    | some q' => putAll q' vs
    | none => none

/-- `take` `n` times, collecting the returned elements in order; `none` if
some `take` would suspend. -/
def takeN {T : Type} (q : BlockingQueue T) :
    Nat → Option (List T × BlockingQueue T)
  | 0 => some ([], q)
  | n + 1 =>
    match tryTake q with
    | some (v, q') =>
      match takeN q' n with
      | some (vs, q2) => some (v :: vs, q2)
      | none => none
    | none => none

/-- A `put` loop whose check fails never succeeds in a quiescent
environment, whatever the iteration budget. -/
theorem putLoop_of_none {T : Type} (q : BlockingQueue T) (x : T)
    (h : tryPut q x = none) : ∀ n, putLoop q x n = none := by
  intro n
  induction n with
  | zero => rfl
  | succ n ih => simp [putLoop, h, ih]

/-- A `take` loop whose check fails never succeeds in a quiescent
environment, whatever the iteration budget. -/
theorem takeLoop_of_none {T : Type} (q : BlockingQueue T)
    (h : tryTake q = none) : ∀ n, takeLoop q n = none := by
  intro n
  induction n with
  | zero => rfl
  | succ n ih => simp [takeLoop, h, ih]

/-- With at least one permitted iteration and a quiescent environment, the
`put` loop's outcome is decided by its first check: later iterations see the
same state. -/
theorem putLoop_succ {T : Type} (q : BlockingQueue T) (x : T) (n : Nat) :
    putLoop q x (n + 1) = tryPut q x := by
  cases h : tryPut q x with
  | some q' => simp [putLoop, h]
  | none => simp [putLoop, h, putLoop_of_none q x h n]

/-- Symmetric fact for the `take` loop. -/
theorem takeLoop_succ {T : Type} (q : BlockingQueue T) (n : Nat) :
    takeLoop q (n + 1) = tryTake q := by
  cases h : tryTake q with
  | some r => simp [takeLoop, h]
  | none => simp [takeLoop, h, takeLoop_of_none q h n]

/-- No operation changes the capacity field. -/
theorem applyOp_capacity {T : Type} (q : BlockingQueue T) (op : Op T) :
    (applyOp q op).capacity = q.capacity := by
  obtain ⟨l, c⟩ := q
  cases op with
  | put v =>
    by_cases hc : l.length < c <;> simp [applyOp, tryPut, hc]
  | take =>
    cases l <;> simp [applyOp, tryTake]

/-- One operation preserves the capacity bound on the buffer length. -/
theorem applyOp_length_le {T : Type} (q : BlockingQueue T) (op : Op T)
    (h : q.queue.length ≤ q.capacity) :
    (applyOp q op).queue.length ≤ q.capacity := by
  obtain ⟨l, c⟩ := q
  cases op with
  | put v =>
    by_cases hc : l.length < c
    · simp [applyOp, tryPut, hc]
      omega
    · simp only [applyOp, tryPut, if_neg hc]
      exact h
  | take =>
    cases l with
    | nil => simp [applyOp, tryTake]
    | cons a as =>
      simp_all [applyOp, tryTake]
      omega

/-- Running any sequence of operations preserves the capacity bound and the
capacity field. -/
theorem run_invariant {T : Type} (ops : List (Op T)) (q : BlockingQueue T)
    (h : q.queue.length ≤ q.capacity) :
    (run q ops).queue.length ≤ q.capacity ∧
    (run q ops).capacity = q.capacity := by
  induction ops generalizing q with
  | nil => exact ⟨h, rfl⟩
  | cons op ops ih =>
    have hcap := applyOp_capacity q op
    have hlen := applyOp_length_le q op h
    have := ih (applyOp q op) (hcap ▸ hlen)
    simpa [run, hcap] using this

/-- Putting a list of elements one by one succeeds when there is room for
all of them, and appends them at the tail in order. -/
theorem putAll_ok {T : Type} (vs : List T) (q : BlockingQueue T)
    (h : q.queue.length + vs.length ≤ q.capacity) :
    putAll q vs = some ⟨q.queue ++ vs, q.capacity⟩ := by
  induction vs generalizing q with
  | nil => simp [putAll]
  | cons v vs ih =>
    have hlt : q.queue.length < q.capacity := by
      simp at h
      omega
    have h' : (⟨q.queue ++ [v], q.capacity⟩ : BlockingQueue T).queue.length
        + vs.length ≤ q.capacity := by
      simp at h ⊢
      omega
    simp [putAll, tryPut, hlt, ih _ h']

/-- Taking exactly as many elements as are buffered returns the whole buffer
in order and leaves the queue empty. -/
theorem takeN_all {T : Type} (l : List T) (c : Nat) :
    takeN (⟨l, c⟩ : BlockingQueue T) l.length = some (l, ⟨[], c⟩) := by
  induction l with
  | nil => simp [takeN]
  | cons x xs ih => simp [takeN, tryTake, ih]

/-- Claim C1: for every sequence of put and take operations on a queue
constructed with capacity C, the buffer length is always at least 0 and
never exceeds C; put only appends when the current length is strictly below
C, take only removes when the buffer is non-empty. -/
theorem capacity_invariant (T : Type) (C : Nat) (ops : List (Op T)) :
    0 ≤ (run (BlockingQueue.new T C) ops).queue.length ∧
    (run (BlockingQueue.new T C) ops).queue.length ≤ C := by
  refine ⟨Nat.zero_le _, ?_⟩
  have h := run_invariant ops (BlockingQueue.new T C)
    (by simp [BlockingQueue.new])
  exact h.1

/-- Claim C2: on an initially empty queue of capacity at least N, N puts of
v1..vN followed by N takes return exactly v1..vN in order, leaving the queue
empty: no element is reordered, duplicated or dropped. -/
theorem fifo_order (T : Type) (C : Nat) (vs : List T) (h : vs.length ≤ C) :
    (putAll (BlockingQueue.new T C) vs).bind
        (fun q' => takeN q' vs.length) =
      some (vs, BlockingQueue.new T C) := by
  have hp := putAll_ok vs (BlockingQueue.new T C)
    (by simpa [BlockingQueue.new] using h)
  rw [hp]
  simpa [BlockingQueue.new] using takeN_all vs C

/-- Witness for C2 at a concrete input: capacity 3, values 1, 2, 3. -/
theorem fifo_order_witness :
    ([1, 2, 3] : List Nat).length ≤ 3 ∧
    (putAll (BlockingQueue.new Nat 3) [1, 2, 3]).bind
        (fun q' => takeN q' ([1, 2, 3] : List Nat).length) =
      some ([1, 2, 3], BlockingQueue.new Nat 3) :=
  ⟨by decide, fifo_order Nat 3 [1, 2, 3] (by decide)⟩

/-- Claim C3: offer is all-or-nothing: if it returns true the item was
appended at the tail (the effect of put), if it returns false the buffer is
exactly what it was before; in particular offer on a full queue that is
never drained within the timeout returns false with the queue unchanged. -/
theorem offer_all_or_nothing (T : Type) (q : BlockingQueue T) (x : T)
    (d : Nat) :
    ((offer q x d).1 = true →
      (offer q x d).2 = ⟨q.queue ++ [x], q.capacity⟩) ∧
    ((offer q x d).1 = false → (offer q x d).2 = q) ∧
    (q.capacity ≤ q.queue.length → offer q x d = (false, q)) := by
  by_cases hc : q.queue.length < q.capacity
  · refine ⟨fun _ => ?_, fun hfalse => ?_, fun hfull => ?_⟩
    · simp [offer, putLoop_succ, tryPut, hc]
    · simp [offer, putLoop_succ, tryPut, hc] at hfalse
    · omega
  · have : tryPut q x = none := by simp [tryPut, hc]
    refine ⟨fun htrue => ?_, fun _ => ?_, fun _ => ?_⟩ <;>
      simp_all [offer, putLoop_succ]

/-- Witness for C3 at a concrete input: a full queue of capacity 1, so
offer fails and leaves the buffer untouched. -/
theorem offer_all_or_nothing_witness :
    offer (⟨[1], 1⟩ : BlockingQueue Nat) 2 7 = (false, ⟨[1], 1⟩) :=
  (offer_all_or_nothing Nat ⟨[1], 1⟩ 2 7).2.2 (by decide)

/-- Claim C4: poll is all-or-nothing: either it removes exactly the head
element and returns it in some, or it removes nothing and returns none; in
particular poll on an empty queue that receives no insert within the timeout
returns none with the buffer still empty. -/
theorem poll_all_or_nothing (T : Type) (q : BlockingQueue T) (d : Nat) :
    (∀ v, (poll q d).1 = some v →
      q.queue = v :: (poll q d).2.queue ∧
      (poll q d).2.capacity = q.capacity) ∧
    ((poll q d).1 = none → (poll q d).2 = q) ∧
    (q.queue = [] → poll q d = (none, q)) := by
  obtain ⟨l, c⟩ := q
  cases l with
  | nil => simp [poll, takeLoop_succ, tryTake]
  | cons a as =>
    refine ⟨fun v hv => ?_, fun hnone => ?_, fun habs => ?_⟩
    · simp [poll, takeLoop_succ, tryTake] at hv ⊢
      simp [hv]
    · simp [poll, takeLoop_succ, tryTake] at hnone
    · simp at habs

/-- Witness for C4 at a concrete input: an empty queue, so poll returns
none and the buffer stays empty. -/
theorem poll_all_or_nothing_witness :
    poll (⟨[], 2⟩ : BlockingQueue Nat) 9 = (none, ⟨[], 2⟩) :=
  (poll_all_or_nothing Nat ⟨[], 2⟩ 9).2.2 (by decide)

/-- Counterexample to claim C5: on the queue holding [1] with capacity 2,
put(2) completes without blocking, but the take that follows returns the
FIFO head 1, not the freshly inserted 2. -/
theorem put_then_take_cex :
    tryPut (⟨[1], 2⟩ : BlockingQueue Nat) 2 = some ⟨[1, 2], 2⟩ ∧
    tryTake (⟨[1, 2], 2⟩ : BlockingQueue Nat) = some (1, ⟨[2], 2⟩) ∧
    (1 : Nat) ≠ 2 := by
  refine ⟨?_, ?_, by decide⟩ <;> simp [tryPut, tryTake]

/-- Claim C5 as amended: for any x and any queue state with an EMPTY buffer
in which put(x) completes without blocking (i.e. with positive capacity),
put(x) immediately followed by take() returns x. -/
theorem put_then_take (T : Type) (q : BlockingQueue T) (x : T)
    (he : q.queue = []) (hc : q.queue.length < q.capacity) :
    tryPut q x = some ⟨[x], q.capacity⟩ ∧
    tryTake (⟨[x], q.capacity⟩ : BlockingQueue T) =
      some (x, ⟨[], q.capacity⟩) := by
  obtain ⟨l, c⟩ := q
  subst he
  simp only [List.length_nil] at hc
  simp [tryPut, tryTake, hc]

/-- Witness for the amended C5 at a concrete input: empty queue of
capacity 1 and x = 42. -/
theorem put_then_take_witness :
    tryPut (⟨[], 1⟩ : BlockingQueue Nat) 42 = some ⟨[42], 1⟩ ∧
    tryTake (⟨[42], 1⟩ : BlockingQueue Nat) = some (42, ⟨[], 1⟩) :=
  put_then_take Nat ⟨[], 1⟩ 42 (by decide) (by decide)

/-- Counterexample to claim C6: new(0) is not rejected — it silently
returns a queue with an empty buffer and capacity 0, on which put can never
succeed. -/
theorem new_zero_cex :
    BlockingQueue.new Nat 0 = ⟨[], 0⟩ ∧
    tryPut (BlockingQueue.new Nat 0) 7 = none := by
  refine ⟨rfl, ?_⟩
  simp [BlockingQueue.new, tryPut]

/-- Claim C6 as amended: new performs no validation: capacity 0 is silently
accepted and yields a queue that behaves as always-full — put never
succeeds on it and offer always fails leaving it unchanged. -/
theorem new_zero_always_full (T : Type) (x : T) (d : Nat) :
    (BlockingQueue.new T 0).queue = [] ∧
    (BlockingQueue.new T 0).capacity = 0 ∧
    tryPut (BlockingQueue.new T 0) x = none ∧
    offer (BlockingQueue.new T 0) x d = (false, BlockingQueue.new T 0) := by
  refine ⟨rfl, rfl, ?_, ?_⟩ <;>
    simp [BlockingQueue.new, offer, putLoop_succ, tryPut]

/-- Claim C7: when the buffer length is strictly below capacity, put
terminates on its first loop iteration without suspending, appends the item
at the tail — every previously buffered element stays in place and in
order — and the length grows by exactly one. -/
theorem put_appends (T : Type) (q : BlockingQueue T) (x : T)
    (h : q.queue.length < q.capacity) :
    tryPut q x = some ⟨q.queue ++ [x], q.capacity⟩ ∧
    putLoop q x 1 = some ⟨q.queue ++ [x], q.capacity⟩ ∧
    (q.queue ++ [x]).length = q.queue.length + 1 := by
  refine ⟨?_, ?_, by simp⟩ <;> simp [tryPut, putLoop_succ, h]

/-- Witness for C7 at a concrete input: queue [5] with capacity 2, putting
6. -/
theorem put_appends_witness :
    tryPut (⟨[5], 2⟩ : BlockingQueue Nat) 6 = some ⟨[5, 6], 2⟩ ∧
    putLoop (⟨[5], 2⟩ : BlockingQueue Nat) 6 1 = some ⟨[5, 6], 2⟩ ∧
    (([5] : List Nat) ++ [6]).length = ([5] : List Nat).length + 1 :=
  put_appends Nat ⟨[5], 2⟩ 6 (by decide)

/-- Claim C8: a zero timeout still performs one immediate check: offer with
timeout zero on a queue with room inserts the item and returns true rather
than failing immediately. -/
theorem offer_zero_timeout (T : Type) (q : BlockingQueue T) (x : T)
    (h : q.queue.length < q.capacity) :
    offer q x 0 = (true, ⟨q.queue ++ [x], q.capacity⟩) := by
  simp [offer, putLoop_succ, tryPut, h]

/-- Witness for C8 at a concrete input: queue [1] with capacity 2, zero
timeout. -/
theorem offer_zero_timeout_witness :
    offer (⟨[1], 2⟩ : BlockingQueue Nat) 2 0 = (true, ⟨[1, 2], 2⟩) :=
  offer_zero_timeout Nat ⟨[1], 2⟩ 2 (by decide)

/-- Claim C9: on their success paths the timed operations refine the
unconditional ones: when offer returns true the resulting state is exactly
the state put would produce, and when poll returns some v both the value and
the resulting state are exactly what take would return and produce. -/
theorem timed_refines_untimed (T : Type) (q : BlockingQueue T) (x : T)
    (d : Nat) :
    ((offer q x d).1 = true → tryPut q x = some (offer q x d).2) ∧
    (∀ v, (poll q d).1 = some v → tryTake q = some (v, (poll q d).2)) := by
  constructor
  · intro htrue
    cases h : tryPut q x with
    | some q' => simp [offer, putLoop_succ, h]
    | none => simp [offer, putLoop_succ, h] at htrue
  · intro v hv
    cases h : tryTake q with
    | some r =>
      obtain ⟨w, q'⟩ := r
      simp [poll, takeLoop_succ, h] at hv ⊢
      simp [hv]
    | none => simp [poll, takeLoop_succ, h] at hv

/-- Witness for C9 at concrete inputs: a successful offer on an empty queue
of capacity 1 and a successful poll on the queue holding [3]. -/
theorem timed_refines_untimed_witness :
    tryPut (⟨[], 1⟩ : BlockingQueue Nat) 5 =
      some (offer (⟨[], 1⟩ : BlockingQueue Nat) 5 0).2 ∧
    tryTake (⟨[3], 1⟩ : BlockingQueue Nat) =
      some (3, (poll (⟨[3], 1⟩ : BlockingQueue Nat) 0).2) :=
  ⟨(timed_refines_untimed Nat ⟨[], 1⟩ 5 0).1 (by decide),
   (timed_refines_untimed Nat ⟨[3], 1⟩ 5 0).2 3 (by decide)⟩

/-- Neither branch of offer changes the capacity field. -/
theorem offer_capacity {T : Type} (q : BlockingQueue T) (x : T) (d : Nat) :
    ((offer q x d).2).capacity = q.capacity := by
  by_cases hc : q.queue.length < q.capacity <;>
    simp [offer, putLoop_succ, tryPut, hc]

/-- Neither branch of poll changes the capacity field. -/
theorem poll_capacity {T : Type} (q : BlockingQueue T) (d : Nat) :
    ((poll q d).2).capacity = q.capacity := by
  obtain ⟨l, c⟩ := q
  cases l <;> simp [poll, takeLoop_succ, tryTake]

/-- Claim C10: on a non-empty queue, a completed take removes exactly the
head: the remaining buffer is the tail of the previous buffer with every
other element unchanged and in the same relative order, the length drops by
exactly one, and the capacity field is untouched by take and by every other
operation. -/
theorem take_removes_head (T : Type) (q : BlockingQueue T) (x y : T)
    (rest : List T) (d : Nat) (op : Op T) (h : q.queue = x :: rest) :
    tryTake q = some (x, ⟨rest, q.capacity⟩) ∧
    q.queue.length = rest.length + 1 ∧
    (applyOp q op).capacity = q.capacity ∧
    ((offer q y d).2).capacity = q.capacity ∧
    ((poll q d).2).capacity = q.capacity := by
  refine ⟨?_, ?_, applyOp_capacity q op, offer_capacity q y d,
    poll_capacity q d⟩ <;> simp [tryTake, h]

/-- Witness for C10 at a concrete input: queue [7, 8] with capacity 3. -/
theorem take_removes_head_witness :
    tryTake (⟨[7, 8], 3⟩ : BlockingQueue Nat) = some (7, ⟨[8], 3⟩) ∧
    (⟨[7, 8], 3⟩ : BlockingQueue Nat).queue.length = ([8] : List Nat).length + 1 ∧
    (applyOp (⟨[7, 8], 3⟩ : BlockingQueue Nat) (Op.put 9)).capacity = 3 ∧
    ((offer (⟨[7, 8], 3⟩ : BlockingQueue Nat) 9 4).2).capacity = 3 ∧
    ((poll (⟨[7, 8], 3⟩ : BlockingQueue Nat) 4).2).capacity = 3 :=
  take_removes_head Nat ⟨[7, 8], 3⟩ 7 9 [8] 4 (Op.put 9) (by decide)
